import Mathlib

/-
  Verification development for the repository GeniusBeaver/Vector
  (src/Vector/vector.h): a generic resizable-array container built on a
  raw-memory block abstraction.

  Modelling conventions (shallow embedding):
  * A raw buffer is a function Nat -> Option A together with a capacity.
    A slot holding `none` models uninitialized storage; `some x` models a
    live, constructed element of value x.  Element types are modelled with
    value semantics of trivially copyable C++ types (such as int): a move
    reads the source value and leaves it in place, so
    std::uninitialized_move_n and std::uninitialized_copy_n coincide
    value-wise, as do std::move / std::move_backward assignment loops,
    whose per-slot reads all happen before the overlapping writes.
  * size_t subtraction that can actually wrap on inputs the spec allows
    (Resize) is modelled with explicit arithmetic modulo 2^64 (usub);
    subtractions that can only wrap when a documented precondition is
    violated (PopBack on empty, invalid positions) use truncated Nat
    subtraction, since the C++ there is undefined anyway.
-/

namespace CppVec

/-- Modulo-2^64 subtraction, the value of `a - b` at type size_t
for operands below 2^64. -/
def usub (a b : Nat) : Nat :=
  (a + 2 ^ 64 - b) % 2 ^ 64

/-- Overwrite slots [dstPos, dstPos + n) of dst with the slots of src
starting at srcPos.  Models std::uninitialized_copy_n /
std::uninitialized_move_n / std::move / std::move_backward on ranges of
our value-semantics elements: every read is of the pre-call buffer. -/
def copyRange (dst src : Nat → Option α) (srcPos n dstPos : Nat) : Nat → Option α :=
  fun i => if dstPos ≤ i ∧ i < dstPos + n then src (srcPos + (i - dstPos)) else dst i

/-- Set slots [start, start + n) to uninitialized.  Models std::destroy_n. -/
def destroyN (f : Nat → Option α) (start n : Nat) : Nat → Option α :=
  fun i => if start ≤ i ∧ i < start + n then none else f i

/-- Set slots [start, start + n) to the default (value-initialized) element.
Models std::uninitialized_value_construct_n. -/
def valueConstructN [Inhabited α] (f : Nat → Option α) (start n : Nat) : Nat → Option α :=
  fun i => if start ≤ i ∧ i < start + n then some default else f i

/-- Write one slot.  Models a placement new of a single element (o = some x)
or, in the self-referential insert model, a copy of whatever the read slot
holds (o may be none for an uninitialized read). -/
def setSlot (f : Nat → Option α) (idx : Nat) (o : Option α) : Nat → Option α :=
  fun i => if i = idx then o else f i

/-- RawMemory<T>: an owned block of uninitialized storage for `capacity`
elements.  The buffer function models the bytes: fresh allocations hold no
live elements anywhere. -/
structure RawMemory (α : Type) where
  buffer : Nat → Option α
  capacity : Nat

/-- RawMemory(size_t capacity): Allocate only, no construction. -/
def RawMemory.alloc (α : Type) (n : Nat) : RawMemory α :=
  ⟨fun _ => none, n⟩

/-- Vector<T>: a RawMemory block plus the live count size_. -/
structure Vector (α : Type) where
  data : RawMemory α
  size : Nat

/-- Vector(): default construction, empty state. -/
def Vector.empty (α : Type) : Vector α :=
  ⟨RawMemory.alloc α 0, 0⟩

/-- explicit Vector(size_t size): allocate for `size` elements, then
uninitialized_value_construct_n(data_.GetAddress(), size). -/
def Vector.ofSize (α : Type) [Inhabited α] (n : Nat) : Vector α :=
  ⟨⟨valueConstructN (RawMemory.alloc α n).buffer 0 n, n⟩, n⟩

/-- Vector(const Vector&): allocate for other.size_ elements, then
uninitialized_copy_n(other.data_.GetAddress(), other.size_, data_.GetAddress()). -/
def Vector.copy (other : Vector α) : Vector α :=
  ⟨⟨copyRange (RawMemory.alloc α other.size).buffer other.data.buffer 0 other.size 0,
    other.size⟩, other.size⟩

/-- Vector(Vector&&): steal data_ and size_, leave the source default
(empty RawMemory, size 0).  Returns (new vector, source afterwards). -/
def Vector.moveCtor (other : Vector α) : Vector α × Vector α :=
  (⟨other.data, other.size⟩, ⟨RawMemory.alloc α 0, 0⟩)

/-- Size(). -/
def Vector.Size (v : Vector α) : Nat :=
  v.size

/-- Capacity(). -/
def Vector.Capacity (v : Vector α) : Nat :=
  v.data.capacity

/-- operator[]: unchecked read of slot `index` (none models a read of
uninitialized storage). -/
def Vector.get (v : Vector α) (index : Nat) : Option α :=
  v.data.buffer index

/-- The live range [0, size) of the buffer, as a list of slots. -/
def Vector.contents (v : Vector α) : List (Option α) :=
  (List.range v.size).map v.data.buffer

/-- Reserve(new_capacity): no-op when new_capacity <= Capacity(); otherwise
allocate a new block, relocate the size_ live elements into it
(uninitialized_move_n or uninitialized_copy_n, identical value-wise here),
destroy the old ones and swap the block in. -/
def Vector.Reserve (v : Vector α) (new_capacity : Nat) : Vector α :=
  if new_capacity ≤ v.data.capacity then v
  else
    ⟨⟨copyRange (RawMemory.alloc α new_capacity).buffer v.data.buffer 0 v.size 0,
      new_capacity⟩, v.size⟩

/-- Resize(new_size), translated exactly as written in the source:
if Capacity() > new_size, destroy_n(GetAddress() + new_size, size_ - new_size)
with size_t subtraction (which wraps when new_size > size_); else if
Capacity() < new_size, Reserve(new_size) then
uninitialized_value_construct_n(GetAddress(), new_size - size_) -- note the
construction starts at offset 0, as in the source; finally size_ = new_size. -/
def Vector.Resize [Inhabited α] (v : Vector α) (new_size : Nat) : Vector α :=
  if v.data.capacity > new_size then
    ⟨⟨destroyN v.data.buffer new_size (usub v.size new_size), v.data.capacity⟩, new_size⟩
  else if v.data.capacity < new_size then
    ⟨⟨valueConstructN (v.Reserve new_size).data.buffer 0 (new_size - v.size),
      (v.Reserve new_size).data.capacity⟩, new_size⟩
  else
    ⟨v.data, new_size⟩

/-- PopBack(): data_[size_ - 1].~T(); --size_. -/
def Vector.PopBack (v : Vector α) : Vector α :=
  ⟨⟨setSlot v.data.buffer (v.size - 1) none, v.data.capacity⟩, v.size - 1⟩

/-- Emplace(pos, args...) for an argument value that does not alias the
vector's own storage.  begin1 = distance(cbegin(), pos).
Growth path (size_ == Capacity()): allocate a doubled block tv, placement-new
the new element at tv + begin1 first, then relocate [0, begin1) to tv and
[begin1, size_) to tv + begin1 + 1, destroy the old elements, swap.
No-growth path: if pos is not the end, construct a new last slot from the
old last element, move_backward the middle range one slot right, then assign
the new value into slot begin1; otherwise construct directly at the end. -/
def Vector.Emplace (v : Vector α) (pos : Nat) (x : α) : Vector α :=
  let begin1 := pos
  if v.size = v.data.capacity then
    let newCap := if v.size = 0 then 1 else v.size * 2
    let end1 := v.size - begin1
    let tv0 := setSlot (RawMemory.alloc α newCap).buffer begin1 (some x)
    let tv1 := copyRange tv0 v.data.buffer 0 begin1 0
    let tv2 := copyRange tv1 v.data.buffer begin1 end1 (begin1 + 1)
    ⟨⟨tv2, newCap⟩, v.size + 1⟩
  else
    if v.size ≠ begin1 then
      let b1 := setSlot v.data.buffer v.size (v.data.buffer (v.size - 1))
      let b2 := copyRange b1 b1 begin1 (v.size - 1 - begin1) (begin1 + 1)
      let b3 := setSlot b2 begin1 (some x)
      ⟨⟨b3, v.data.capacity⟩, v.size + 1⟩
    else
      ⟨⟨setSlot v.data.buffer begin1 (some x), v.data.capacity⟩, v.size + 1⟩

/-- EmplaceBack(args...): Emplace(begin() + size_, args...). -/
def Vector.EmplaceBack (v : Vector α) (x : α) : Vector α :=
  v.Emplace v.size x

/-- PushBack(value): EmplaceBack(value). -/
def Vector.PushBack (v : Vector α) (x : α) : Vector α :=
  v.EmplaceBack x

/-- Insert(pos, value) for a non-aliasing value: Emplace(pos, value). -/
def Vector.Insert (v : Vector α) (pos : Nat) (x : α) : Vector α :=
  v.Emplace pos x

/-- Insert(pos, (*this)[j]): the self-referential insert.  Identical control
flow to Emplace, but the argument is a reference to slot j of this vector,
so each path copies whatever slot j holds at the moment the code actually
reads it: the growth path reads it in the placement new before any
relocation; the no-growth shift path reads it only when constructing the
temporary in data_[begin1] = T(args...), which happens after move_backward
has already shifted the tail. -/
def Vector.InsertSelf (v : Vector α) (pos j : Nat) : Vector α :=
  let begin1 := pos
  if v.size = v.data.capacity then
    let newCap := if v.size = 0 then 1 else v.size * 2
    let end1 := v.size - begin1
    let tv0 := setSlot (RawMemory.alloc α newCap).buffer begin1 (v.data.buffer j)
    let tv1 := copyRange tv0 v.data.buffer 0 begin1 0
    let tv2 := copyRange tv1 v.data.buffer begin1 end1 (begin1 + 1)
    ⟨⟨tv2, newCap⟩, v.size + 1⟩
  else
    if v.size ≠ begin1 then
      let b1 := setSlot v.data.buffer v.size (v.data.buffer (v.size - 1))
      let b2 := copyRange b1 b1 begin1 (v.size - 1 - begin1) (begin1 + 1)
      let b3 := setSlot b2 begin1 (b2 j)
      ⟨⟨b3, v.data.capacity⟩, v.size + 1⟩
    else
      ⟨⟨setSlot v.data.buffer begin1 (v.data.buffer j), v.data.capacity⟩, v.size + 1⟩

/-- Erase(pos): std::move(begin() + pos + 1, end(), begin() + pos), then
destroy_n(end() - 1, 1), then --size_. -/
def Vector.Erase (v : Vector α) (pos : Nat) : Vector α :=
  let b := copyRange v.data.buffer v.data.buffer (pos + 1) (v.size - (pos + 1)) pos
  ⟨⟨destroyN b (v.size - 1) 1, v.data.capacity⟩, v.size - 1⟩

/-- operator=(const Vector&), for distinct objects, translated exactly:
if rhs.size_ > Capacity(), copy-construct a temporary from rhs and Swap.
Else if rhs.size_ < size_, assign the prefix [0, rhs.size_) element-wise
and destroy_n the trailing size_ - rhs.size_ elements.  Else assign the
prefix [0, size_) element-wise and then, as in the source,
uninitialized_copy_n(data_.GetAddress() + size_, rhs.size_ - size_,
data_.GetAddress() + size_) -- both source and destination are this
vector's own tail.  Finally size_ = rhs.size_. -/
def Vector.copyAssign (v rhs : Vector α) : Vector α :=
  if rhs.size > v.data.capacity then
    Vector.copy rhs
  else if rhs.size < v.size then
    let b := copyRange v.data.buffer rhs.data.buffer 0 rhs.size 0
    ⟨⟨destroyN b rhs.size (v.size - rhs.size), v.data.capacity⟩, rhs.size⟩
  else
    let b := copyRange v.data.buffer rhs.data.buffer 0 v.size 0
    let b2 := copyRange b b v.size (rhs.size - v.size) v.size
    ⟨⟨b2, v.data.capacity⟩, rhs.size⟩

/-- operator=(Vector&&), for distinct objects:
data_ = std::exchange(rhs.data_, RawMemory<T>{}); size_ = std::exchange(rhs.size_, 0).
Value-wise the destination takes rhs's block and size and rhs becomes empty.
Returns (destination afterwards, source afterwards). -/
def Vector.moveAssign (v rhs : Vector α) : Vector α × Vector α :=
  (⟨rhs.data, rhs.size⟩, ⟨RawMemory.alloc α 0, 0⟩)

/-- Swap(other): swap the RawMemory blocks and the sizes. -/
def Vector.SwapOp (v other : Vector α) : Vector α × Vector α :=
  (⟨other.data, other.size⟩, ⟨v.data, v.size⟩)

/-- The container invariant of the spec: size_ never exceeds capacity,
slots [0, size_) hold live elements, and slots [size_, capacity) are
uninitialized. -/
def Inv (v : Vector α) : Prop :=
  v.size ≤ v.data.capacity ∧
  (∀ i, i < v.size → (v.data.buffer i).isSome = true) ∧
  (∀ i, i < v.data.capacity → v.size ≤ i → v.data.buffer i = none)

end CppVec

namespace CppVec

/-- Pointwise equality on [0, n) gives equal maps over List.range n. -/
theorem map_range_congr {β : Type} (f g : Nat → β) (n : Nat)
    (h : ∀ i, i < n → f i = g i) :
    (List.range n).map f = (List.range n).map g :=
  List.map_congr_left fun i hi => h i (List.mem_range.mp hi)

/-- A vector holding the live values [1, 2] in a block of capacity 2. -/
def ex12 : Vector Nat :=
  ⟨⟨fun i => if i = 0 then some 1 else if i = 1 then some 2 else none, 2⟩, 2⟩

/-- A vector holding the live values [10, 20, 30] in a block of capacity 4. -/
def ex103 : Vector Nat :=
  ⟨⟨fun i => if i = 0 then some 10 else if i = 1 then some 20 else
     if i = 2 then some 30 else none, 4⟩, 3⟩

/-- A vector holding the live value [1] in a block of capacity 2. -/
def exA1 : Vector Nat :=
  ⟨⟨fun i => if i = 0 then some 1 else none, 2⟩, 1⟩

/-- A vector holding the live values [7, 8] in a block of capacity 2. -/
def exB78 : Vector Nat :=
  ⟨⟨fun i => if i = 0 then some 7 else if i = 1 then some 8 else none, 2⟩, 2⟩

end CppVec

namespace CppVec

/-- Claim C1: the claim says Resize(new_size) with new_size > Size() preserves
all existing elements and appends default-constructed elements.  Evaluating
the code on the vector [1, 2] (capacity 2): Resize(3) reserves capacity 3 but
then value-constructs the new element at offset 0 of the buffer, so the
result is Size() = 3 with slot 0 overwritten by the default value 0, slot 1
still 2, and slot 2 left uninitialized -- not [1, 2, 0]. -/
theorem resize_divergence_on_ex12 :
    ex12.Size = 2 ∧ ex12.get 0 = some 1 ∧ ex12.get 1 = some 2 ∧
    (ex12.Resize 3).Size = 3 ∧
    (ex12.Resize 3).get 0 = some 0 ∧
    (ex12.Resize 3).get 1 = some 2 ∧
    (ex12.Resize 3).get 2 = none := by
  decide

/-- Claim C2: the claim says Insert(p, a[j]) always inserts the pre-call
value of a[j].  Evaluating the code on a = [10, 20, 30] (capacity 4, so no
reallocation): Insert at position 0 of a[1] (pre-call value 20) takes the
shift path, which move_backwards the tail before reading the argument, so
the temporary is built from the already-shifted slot 1 and the element
inserted is 10, not 20. -/
theorem insertSelf_divergence_on_ex103 :
    ex103.get 1 = some 20 ∧
    (ex103.InsertSelf 0 1).Size = 4 ∧
    (ex103.InsertSelf 0 1).get 0 = some 10 ∧
    (ex103.InsertSelf 0 1).get 1 = some 10 ∧
    (ex103.InsertSelf 0 1).get 2 = some 20 ∧
    (ex103.InsertSelf 0 1).get 3 = some 30 := by
  decide

/-- Claim C7: the claim says copy assignment into sufficient capacity
copy-constructs the source's extra trailing elements into the target's tail.
Evaluating the code on target [1] (capacity 2) and source [7, 8]: the code
reuses capacity, assigns the prefix, but then copies the tail from the
target's own uninitialized tail (uninitialized_copy_n(data_ + size_, ts,
data_ + size_) instead of rhs.data_ + size_), so element 1 stays
uninitialized rather than becoming 8. -/
theorem copyAssign_divergence_on_exA1 :
    (exA1.copyAssign exB78).Size = 2 ∧
    (exA1.copyAssign exB78).get 0 = some 7 ∧
    (exA1.copyAssign exB78).get 1 = none ∧
    exB78.get 1 = some 8 := by
  decide

/-- Claim C6: move construction and move assignment leave the source empty
(Size() = 0, Capacity() = 0) and the destination holds exactly the source's
prior elements in order; both are straight-line field exchanges that perform
no allocation or element operation, so they cannot fail. -/
theorem move_ops_spec (α : Type) (dst src : Vector α) :
    src.moveCtor.1.Size = src.Size ∧
    src.moveCtor.1.contents = src.contents ∧
    src.moveCtor.2.Size = 0 ∧
    src.moveCtor.2.Capacity = 0 ∧
    (dst.moveAssign src).1.Size = src.Size ∧
    (dst.moveAssign src).1.contents = src.contents ∧
    (dst.moveAssign src).2.Size = 0 ∧
    (dst.moveAssign src).2.Capacity = 0 :=
  ⟨rfl, rfl, rfl, rfl, rfl, rfl, rfl, rfl⟩

/-- Claim C10: on a non-empty vector, PopBack() decrements Size() by one,
leaves Capacity() unchanged, destroys exactly the last live element (slot
Size() - 1 becomes uninitialized) and touches no other slot. -/
theorem popBack_spec (α : Type) (v : Vector α) (h : 0 < v.Size) :
    v.PopBack.Size = v.Size - 1 ∧
    v.PopBack.Capacity = v.Capacity ∧
    (∀ i, i ≠ v.Size - 1 → v.PopBack.get i = v.get i) ∧
    v.PopBack.get (v.Size - 1) = none := by
  refine ⟨rfl, rfl, ?_, ?_⟩
  · intro i hi
    simp only [Vector.PopBack, Vector.get, setSlot, Vector.Size] at *
    rw [if_neg hi]
  · simp [Vector.PopBack, Vector.get, setSlot, Vector.Size]

/-- Witness for popBack_spec: instantiated on the concrete vector [7, 8]. -/
theorem popBack_spec_witness :
    0 < exB78.Size ∧
    (exB78.PopBack.Size = exB78.Size - 1 ∧
     exB78.PopBack.Capacity = exB78.Capacity ∧
     (∀ i, i ≠ exB78.Size - 1 → exB78.PopBack.get i = exB78.get i) ∧
     exB78.PopBack.get (exB78.Size - 1) = none) :=
  ⟨by decide, popBack_spec Nat exB78 (by decide)⟩

end CppVec

namespace CppVec

/-- Claim C8: no operation on a vector's contents ever reduces Capacity();
Reserve(k) with k <= Capacity() is an exact no-op, and Reserve(k) with
k > Capacity() yields Capacity() >= k while preserving Size() and every live
element value in order. -/
theorem reserve_capacity_spec (α : Type) [Inhabited α] (v rhs : Vector α)
    (k n pos j : Nat) (x : α) :
    (k ≤ v.Capacity → v.Reserve k = v) ∧
    (v.Capacity < k →
      k ≤ (v.Reserve k).Capacity ∧ (v.Reserve k).Size = v.Size ∧
      (v.Reserve k).contents = v.contents) ∧
    v.Capacity ≤ (v.Resize n).Capacity ∧
    v.Capacity ≤ (v.Emplace pos x).Capacity ∧
    v.Capacity ≤ (v.InsertSelf pos j).Capacity ∧
    (v.Erase pos).Capacity = v.Capacity ∧
    v.PopBack.Capacity = v.Capacity ∧
    v.Capacity ≤ (v.copyAssign rhs).Capacity := by
  refine ⟨?_, ?_, ?_, ?_, ?_, rfl, rfl, ?_⟩
  · intro h
    unfold Vector.Capacity at h
    unfold Vector.Reserve
    rw [if_pos h]
  · intro h
    unfold Vector.Capacity at h
    have h2 : ¬ k ≤ v.data.capacity := by omega
    refine ⟨?_, ?_, ?_⟩
    · unfold Vector.Reserve Vector.Capacity
      rw [if_neg h2]
    · unfold Vector.Reserve Vector.Size
      rw [if_neg h2]
    · unfold Vector.Reserve Vector.contents
      rw [if_neg h2]
      dsimp only
      apply map_range_congr
      intro i hi
      simp only [copyRange]
      rw [if_pos ⟨Nat.zero_le i, by omega⟩]
      congr 1
      omega
  · unfold Vector.Resize Vector.Capacity Vector.Reserve
    split_ifs <;> simp <;> omega
  · unfold Vector.Emplace Vector.Capacity
    split_ifs <;> simp <;> (try split_ifs) <;> (try simp) <;> omega
  · unfold Vector.InsertSelf Vector.Capacity
    split_ifs <;> simp <;> (try split_ifs) <;> (try simp) <;> omega
  · unfold Vector.copyAssign Vector.Capacity Vector.copy
    split_ifs <;> simp <;> omega

/-- Witness for reserve_capacity_spec: instantiated on the concrete vector
[1] with capacity 2, exercising the no-op mode with k = 1 and the growth
mode with k = 5. -/
theorem reserve_capacity_spec_witness :
    (1 ≤ exA1.Capacity ∧ exA1.Reserve 1 = exA1) ∧
    (exA1.Capacity < 5 ∧ 5 ≤ (exA1.Reserve 5).Capacity ∧
      (exA1.Reserve 5).Size = exA1.Size ∧
      (exA1.Reserve 5).contents = exA1.contents) ∧
    exA1.Capacity ≤ (exA1.Resize 0).Capacity :=
  ⟨⟨by decide, (reserve_capacity_spec Nat exA1 exB78 1 0 0 0 9).1 (by decide)⟩,
   ⟨by decide, (reserve_capacity_spec Nat exA1 exB78 5 0 0 0 9).2.1 (by decide)⟩,
   (reserve_capacity_spec Nat exA1 exB78 1 0 0 0 9).2.2.1⟩

end CppVec

namespace CppVec

/-- One PushBack appends exactly one live slot holding the pushed value:
the size grows by one and the live range gains [some x] at its end.  This
holds on both the growth path (size_ == Capacity(): the new element is
placement-newed into the doubled block at slot size_ before the old live
range is relocated below it) and the no-growth path (direct construction at
end()). -/
theorem emplaceBack_contents (v : Vector α) (x : α) :
    (v.EmplaceBack x).size = v.size + 1 ∧
    (v.EmplaceBack x).contents = v.contents ++ [some x] := by
  have hne : ¬ (v.size ≠ v.size) := fun h => h rfl
  have hsize : (v.EmplaceBack x).size = v.size + 1 := by
    simp only [Vector.EmplaceBack, Vector.Emplace]
    split_ifs <;> rfl
  have hlow : ∀ i, i < v.size → (v.EmplaceBack x).data.buffer i = v.data.buffer i := by
    intro i hi
    simp only [Vector.EmplaceBack, Vector.Emplace]
    by_cases h1 : v.size = v.data.capacity
    · rw [if_pos h1]
      simp only [copyRange, setSlot, RawMemory.alloc]
      split_ifs <;> first | rfl | (congr 1; omega) | (exfalso; omega)
    · rw [if_neg h1, if_neg hne]
      simp only [setSlot]
      split_ifs <;> first | rfl | (exfalso; omega)
  have htop : (v.EmplaceBack x).data.buffer v.size = some x := by
    simp only [Vector.EmplaceBack, Vector.Emplace]
    by_cases h1 : v.size = v.data.capacity
    · rw [if_pos h1]
      simp only [copyRange, setSlot, RawMemory.alloc]
      split_ifs <;> first | rfl | (exfalso; omega)
    · rw [if_neg h1, if_neg hne]
      simp only [setSlot]
      split_ifs <;> first | rfl | (exfalso; omega)
  refine ⟨hsize, ?_⟩
  unfold Vector.contents
  rw [hsize, List.range_succ, List.map_append, List.map_singleton, htop]
  congr 1
  exact map_range_congr _ _ _ hlow

/-- Append a list of values left to right with PushBack. -/
def pushAll (v : Vector α) (xs : List α) : Vector α :=
  xs.foldl Vector.PushBack v

/-- pushAll extends the live range by the pushed values, in order. -/
theorem pushAll_spec (xs : List α) : ∀ (v : Vector α),
    (pushAll v xs).size = v.size + xs.length ∧
    (pushAll v xs).contents = v.contents ++ xs.map some := by
  induction xs with
  | nil => intro v; simp [pushAll]
  | cons x xs ih =>
    intro v
    have h1 := emplaceBack_contents v x
    have h2 := ih (v.PushBack x)
    unfold pushAll at h2 ⊢
    rw [List.foldl_cons]
    unfold Vector.PushBack at h2 ⊢
    refine ⟨?_, ?_⟩
    · rw [h2.1, h1.1, List.length_cons]
      omega
    · rw [h2.2, h1.2, List.map_cons, List.append_assoc, List.singleton_append]

/-- Claim C3: starting from the empty vector, after appending the values of
xs one by one with PushBack / EmplaceBack, Size() equals the number of
appended values and the live range holds exactly those values in order
(element i is the i-th appended value). -/
theorem append_sequence_spec (α : Type) (xs : List α) :
    (pushAll (Vector.empty α) xs).Size = xs.length ∧
    (pushAll (Vector.empty α) xs).contents = xs.map some := by
  have h := pushAll_spec xs (Vector.empty α)
  unfold Vector.Size
  constructor
  · rw [h.1]
    show 0 + xs.length = xs.length
    omega
  · rw [h.2]
    show ([] : List (Option α)) ++ xs.map some = xs.map some
    exact List.nil_append _

end CppVec

namespace CppVec

/-- Buffer-level description of Emplace at a valid position pos <= size_:
the size grows by one, slots below pos are unchanged, slot pos holds the new
value, and each old slot i in [pos, size_) ends up at slot i + 1.  Both the
growth path and the two no-growth paths of the source satisfy this. -/
theorem emplace_buffer_facts (v : Vector α) (pos : Nat) (x : α)
    (hpos : pos ≤ v.size) :
    (v.Emplace pos x).size = v.size + 1 ∧
    (∀ i, i < pos → (v.Emplace pos x).data.buffer i = v.data.buffer i) ∧
    (v.Emplace pos x).data.buffer pos = some x ∧
    (∀ i, pos ≤ i → i < v.size → (v.Emplace pos x).data.buffer (i + 1) = v.data.buffer i) := by
  refine ⟨?_, ?_, ?_, ?_⟩
  · simp only [Vector.Emplace]
    split_ifs <;> rfl
  · intro i hi
    simp only [Vector.Emplace]
    by_cases h1 : v.size = v.data.capacity
    · rw [if_pos h1]
      simp only [copyRange, setSlot, RawMemory.alloc]
      split_ifs <;> first | rfl | (congr 1; omega) | (exfalso; omega)
    · rw [if_neg h1]
      by_cases h2 : v.size = pos
      · rw [if_neg (show ¬ (v.size ≠ pos) from fun h => h h2)]
        simp only [setSlot]
        split_ifs <;> first | rfl | (exfalso; omega)
      · rw [if_pos h2]
        simp only [copyRange, setSlot]
        split_ifs <;> first | rfl | (congr 1; omega) | (exfalso; omega)
  · simp only [Vector.Emplace]
    by_cases h1 : v.size = v.data.capacity
    · rw [if_pos h1]
      simp only [copyRange, setSlot, RawMemory.alloc]
      split_ifs <;> first | rfl | (exfalso; omega)
    · rw [if_neg h1]
      by_cases h2 : v.size = pos
      · rw [if_neg (show ¬ (v.size ≠ pos) from fun h => h h2)]
        simp only [setSlot]
        split_ifs <;> first | rfl | (exfalso; omega)
      · rw [if_pos h2]
        simp only [copyRange, setSlot]
        split_ifs <;> first | rfl | (exfalso; omega)
  · intro i hi1 hi2
    simp only [Vector.Emplace]
    by_cases h1 : v.size = v.data.capacity
    · rw [if_pos h1]
      simp only [copyRange, setSlot, RawMemory.alloc]
      split_ifs <;> first | rfl | (congr 1; omega) | (exfalso; omega)
    · rw [if_neg h1]
      by_cases h2 : v.size = pos
      · rw [if_neg (show ¬ (v.size ≠ pos) from fun h => h h2)]
        simp only [setSlot]
        split_ifs <;> first | rfl | (congr 1; omega) | (exfalso; omega)
      · rw [if_pos h2]
        simp only [copyRange, setSlot]
        split_ifs <;> first | rfl | (congr 1; omega) | (exfalso; omega)

/-- Claim C4: for a non-aliasing value x and a valid position pos <= Size(),
inserting x at pos and then erasing at the returned position (which is pos)
restores the original sequence of element values. -/
theorem insert_erase_roundtrip (α : Type) (v : Vector α) (pos : Nat) (x : α)
    (hpos : pos ≤ v.size) :
    ((v.Insert pos x).Erase pos).Size = v.Size ∧
    ((v.Insert pos x).Erase pos).contents = v.contents := by
  obtain ⟨hsize, hlow, hmid, hhigh⟩ := emplace_buffer_facts v pos x hpos
  have hsz : ((v.Insert pos x).Erase pos).size = v.size := by
    simp only [Vector.Insert, Vector.Erase]
    rw [hsize]
    omega
  have hbuf : ∀ i, i < v.size →
      ((v.Insert pos x).Erase pos).data.buffer i = v.data.buffer i := by
    intro i hi
    simp only [Vector.Insert, Vector.Erase, destroyN, copyRange]
    rw [hsize]
    by_cases h2 : pos ≤ i
    · rw [if_neg (by omega), if_pos ⟨h2, by omega⟩]
      have h3 : pos + 1 + (i - pos) = i + 1 := by omega
      rw [h3]
      exact hhigh i h2 hi
    · rw [if_neg (by omega), if_neg (by omega)]
      exact hlow i (by omega)
  refine ⟨hsz, ?_⟩
  unfold Vector.contents
  rw [hsz]
  exact map_range_congr _ _ _ hbuf

/-- Witness for insert_erase_roundtrip: instantiated on the vector
[10, 20, 30] with insertion of 9 at position 1. -/
theorem insert_erase_roundtrip_witness :
    1 ≤ ex103.size ∧
    (((ex103.Insert 1 9).Erase 1).Size = ex103.Size ∧
     ((ex103.Insert 1 9).Erase 1).contents = ex103.contents) :=
  ⟨by decide, insert_erase_roundtrip Nat ex103 1 9 (by decide)⟩

end CppVec

namespace CppVec

/-- usub agrees with truncated subtraction when no wrap occurs. -/
theorem usub_eq (a b : Nat) (h : b ≤ a) (h2 : a < 2 ^ 64) : usub a b = a - b := by
  unfold usub
  omega

/-- The default-constructed vector satisfies the invariant. -/
theorem inv_empty (α : Type) : Inv (Vector.empty α) := by
  refine ⟨Nat.le_refl 0, ?_, ?_⟩
  · intro i hi
    simp [Vector.empty, RawMemory.alloc] at hi
  · intro i hicap hige
    rfl

/-- The sized constructor satisfies the invariant. -/
theorem inv_ofSize (α : Type) [Inhabited α] (n : Nat) : Inv (Vector.ofSize α n) := by
  refine ⟨Nat.le_refl n, ?_, ?_⟩
  · intro i hi
    simp only [Vector.ofSize] at hi
    simp only [Vector.ofSize, valueConstructN, RawMemory.alloc]
    split_ifs <;> first | rfl | (exfalso; omega)
  · intro i hicap hige
    simp only [Vector.ofSize] at hicap hige
    simp only [Vector.ofSize, valueConstructN, RawMemory.alloc]
    split_ifs <;> first | rfl | (exfalso; omega)

/-- The copy constructor preserves the invariant. -/
theorem inv_copy (v : Vector α) (hv : Inv v) : Inv (Vector.copy v) := by
  obtain ⟨hc, hlive, hdead⟩ := hv
  refine ⟨Nat.le_refl _, ?_, ?_⟩
  · intro i hi
    simp only [Vector.copy, copyRange, RawMemory.alloc] at *
    split_ifs <;> first | (exact hlive _ (by omega)) | (exfalso; omega)
  · intro i hicap hige
    simp only [Vector.copy] at *
    exfalso
    omega

/-- Move construction preserves the invariant on both sides. -/
theorem inv_moveCtor (v : Vector α) (hv : Inv v) :
    Inv v.moveCtor.1 ∧ Inv v.moveCtor.2 :=
  ⟨hv, inv_empty α⟩

/-- Move assignment preserves the invariant on both sides (the destination
takes the source's block and size; the source becomes empty). -/
theorem inv_moveAssign (dst rhs : Vector α) (hrhs : Inv rhs) :
    Inv (dst.moveAssign rhs).1 ∧ Inv (dst.moveAssign rhs).2 :=
  ⟨hrhs, inv_empty α⟩

/-- Swap preserves the invariant on both sides. -/
theorem inv_swap (a b : Vector α) (ha : Inv a) (hb : Inv b) :
    Inv (a.SwapOp b).1 ∧ Inv (a.SwapOp b).2 :=
  ⟨hb, ha⟩

/-- Reserve preserves the invariant. -/
theorem inv_reserve (v : Vector α) (k : Nat) (hv : Inv v) : Inv (v.Reserve k) := by
  obtain ⟨hc, hlive, hdead⟩ := hv
  unfold Vector.Reserve
  by_cases h : k ≤ v.data.capacity
  · rw [if_pos h]
    exact ⟨hc, hlive, hdead⟩
  · rw [if_neg h]
    refine ⟨by dsimp only; omega, ?_, ?_⟩
    · intro i hi
      dsimp only at hi ⊢
      simp only [copyRange, RawMemory.alloc]
      split_ifs <;> first | (exact hlive _ (by omega)) | (exfalso; omega)
    · intro i hicap hige
      dsimp only at hicap hige ⊢
      simp only [copyRange, RawMemory.alloc]
      split_ifs <;> first | rfl | (exfalso; omega)

/-- Resize with new_size <= size_ (the truncating case, plus the size_t
bound under which the destroy count does not wrap) preserves the invariant. -/
theorem inv_resize [Inhabited α] (v : Vector α) (n : Nat) (hv : Inv v)
    (hn : n ≤ v.size) (hsz : v.size < 2 ^ 64) : Inv (v.Resize n) := by
  obtain ⟨hc, hlive, hdead⟩ := hv
  unfold Vector.Resize
  by_cases h1 : v.data.capacity > n
  · rw [if_pos h1]
    have hu : usub v.size n = v.size - n := usub_eq v.size n hn hsz
    refine ⟨by dsimp only; omega, ?_, ?_⟩
    · intro i hi
      dsimp only at hi ⊢
      simp only [destroyN, hu]
      split_ifs <;> first | (exact hlive _ (by omega)) | (exfalso; omega)
    · intro i hicap hige
      dsimp only at hicap hige ⊢
      simp only [destroyN, hu]
      split_ifs <;> first | rfl | (exact hdead i (by omega) (by omega)) | (exfalso; omega)
  · rw [if_neg h1]
    rw [if_neg (show ¬ v.data.capacity < n by omega)]
    refine ⟨by dsimp only; omega, ?_, ?_⟩
    · intro i hi
      dsimp only at hi ⊢
      exact hlive i (by omega)
    · intro i hicap hige
      dsimp only at hicap hige ⊢
      exact hdead i (by omega) (by omega)

/-- The capacity produced by Emplace. -/
theorem emplace_capacity (v : Vector α) (pos : Nat) (x : α) :
    (v.Emplace pos x).data.capacity =
      if v.size = v.data.capacity then (if v.size = 0 then 1 else v.size * 2)
      else v.data.capacity := by
  simp only [Vector.Emplace]
  split_ifs <;> rfl

/-- Emplace at a valid position preserves the invariant. -/
theorem inv_emplace (v : Vector α) (pos : Nat) (x : α) (hv : Inv v)
    (hpos : pos ≤ v.size) : Inv (v.Emplace pos x) := by
  obtain ⟨hc, hlive, hdead⟩ := hv
  obtain ⟨hs, hlow, hmid, hhigh⟩ := emplace_buffer_facts v pos x hpos
  refine ⟨?_, ?_, ?_⟩
  · rw [hs, emplace_capacity]
    split_ifs <;> omega
  · intro i hi
    rw [hs] at hi
    rcases Nat.lt_trichotomy i pos with h | h | h
    · rw [hlow i h]
      exact hlive i (by omega)
    · rw [h, hmid]
      rfl
    · obtain ⟨j, rfl⟩ : ∃ j, i = j + 1 := ⟨i - 1, by omega⟩
      rw [hhigh j (by omega) (by omega)]
      exact hlive j (by omega)
  · intro i hicap hige
    rw [hs] at hige
    rw [emplace_capacity] at hicap
    simp only [Vector.Emplace]
    by_cases h1 : v.size = v.data.capacity
    · rw [if_pos h1]
      simp only [copyRange, setSlot, RawMemory.alloc]
      split_ifs <;> first | rfl | (exfalso; omega)
    · rw [if_neg h1]
      rw [if_neg h1] at hicap
      by_cases h2 : v.size = pos
      · rw [if_neg (show ¬ (v.size ≠ pos) from fun h => h h2)]
        simp only [setSlot]
        split_ifs <;> first | (exfalso; omega) | (exact hdead i (by omega) (by omega))
      · rw [if_pos h2]
        simp only [copyRange, setSlot]
        split_ifs <;> first | (exfalso; omega) | (exact hdead i (by omega) (by omega))

/-- Erase at a valid position preserves the invariant. -/
theorem inv_erase (v : Vector α) (pos : Nat) (hv : Inv v)
    (hpos : pos < v.size) : Inv (v.Erase pos) := by
  obtain ⟨hc, hlive, hdead⟩ := hv
  simp only [Vector.Erase]
  refine ⟨by dsimp only; omega, ?_, ?_⟩
  · intro i hi
    dsimp only at hi ⊢
    simp only [destroyN, copyRange]
    split_ifs <;> first | (exact hlive _ (by omega)) | (exfalso; omega)
  · intro i hicap hige
    dsimp only at hicap hige ⊢
    simp only [destroyN, copyRange]
    split_ifs <;> first | rfl | (exact hdead i (by omega) (by omega)) | (exfalso; omega)

/-- PopBack on a non-empty vector preserves the invariant. -/
theorem inv_popBack (v : Vector α) (hv : Inv v) (h : 0 < v.size) :
    Inv v.PopBack := by
  obtain ⟨hc, hlive, hdead⟩ := hv
  refine ⟨by simp only [Vector.PopBack]; omega, ?_, ?_⟩
  · intro i hi
    simp only [Vector.PopBack, setSlot] at hi ⊢
    split_ifs <;> first | (exact hlive _ (by omega)) | (exfalso; omega)
  · intro i hicap hige
    simp only [Vector.PopBack, setSlot] at hicap hige ⊢
    split_ifs <;> first | rfl | (exact hdead i (by omega) (by omega))

/-- Copy assignment preserves the invariant except in the case where the
source is strictly longer than the target but fits its capacity (the buggy
tail-copy case). -/
theorem inv_copyAssign (v rhs : Vector α) (hv : Inv v) (hrhs : Inv rhs)
    (hcase : rhs.size ≤ v.size ∨ v.data.capacity < rhs.size) :
    Inv (v.copyAssign rhs) := by
  obtain ⟨hc1, hlive1, hdead1⟩ := hv
  obtain ⟨hc2, hlive2, hdead2⟩ := hrhs
  unfold Vector.copyAssign
  by_cases h1 : rhs.size > v.data.capacity
  · rw [if_pos h1]
    exact inv_copy rhs ⟨hc2, hlive2, hdead2⟩
  · rw [if_neg h1]
    by_cases h2 : rhs.size < v.size
    · rw [if_pos h2]
      refine ⟨by dsimp only; omega, ?_, ?_⟩
      · intro i hi
        dsimp only at hi ⊢
        simp only [destroyN, copyRange]
        split_ifs <;> first | (exact hlive2 _ (by omega)) | (exfalso; omega)
      · intro i hicap hige
        dsimp only at hicap hige ⊢
        simp only [destroyN, copyRange]
        split_ifs <;> first | rfl | (exact hdead1 i (by omega) (by omega)) | (exfalso; omega)
    · rw [if_neg h2]
      have he : rhs.size = v.size := by omega
      refine ⟨by dsimp only; omega, ?_, ?_⟩
      · intro i hi
        dsimp only at hi ⊢
        simp only [copyRange]
        split_ifs <;> first | (exact hlive2 _ (by omega)) | (exfalso; omega)
      · intro i hicap hige
        dsimp only at hicap hige ⊢
        simp only [copyRange]
        split_ifs <;> first | (exact hdead1 i (by omega) (by omega)) | (exfalso; omega)

end CppVec

namespace CppVec

/-- The invariant is decidable, so concrete states can be checked by
evaluation. -/
instance decidableInv [DecidableEq α] (v : Vector α) : Decidable (Inv v) := by
  unfold Inv
  infer_instance

/-- Claim C9 counterexample: the invariant is not preserved by every public
operation.  The vector [1, 2] (capacity 2) satisfies the invariant, but
after Resize(3) the code reports Size() = 3 while slot 2 was never
constructed, so the live range contains an uninitialized slot. -/
theorem inv_not_preserved_by_resize :
    Inv ex12 ∧ ¬ Inv (ex12.Resize 3) := by
  decide

/-- Claim C9 (amended): every public operation except Resize with
new_size > Size() and copy assignment from a strictly longer source that
fits the existing capacity preserves the state invariant (live elements
exactly on [0, Size()), uninitialized storage on [Size(), Capacity()),
Size() <= Capacity()). -/
theorem invariant_preservation (α : Type) [Inhabited α] (v rhs : Vector α)
    (m k : Nat) (x : α) (hv : Inv v) (hrhs : Inv rhs) :
    Inv (Vector.empty α) ∧
    Inv (Vector.ofSize α m) ∧
    Inv (Vector.copy v) ∧
    Inv v.moveCtor.1 ∧
    Inv v.moveCtor.2 ∧
    Inv (rhs.moveAssign v).1 ∧
    Inv (rhs.moveAssign v).2 ∧
    Inv (v.SwapOp rhs).1 ∧
    Inv (v.SwapOp rhs).2 ∧
    Inv (v.Reserve k) ∧
    (∀ pos, pos ≤ v.size → Inv (v.Emplace pos x)) ∧
    (∀ pos, pos < v.size → Inv (v.Erase pos)) ∧
    (0 < v.size → Inv v.PopBack) ∧
    (∀ n, n ≤ v.size → v.size < 2 ^ 64 → Inv (v.Resize n)) ∧
    (rhs.size ≤ v.size ∨ v.data.capacity < rhs.size → Inv (v.copyAssign rhs)) :=
  ⟨inv_empty α, inv_ofSize α m, inv_copy v hv,
   (inv_moveCtor v hv).1, (inv_moveCtor v hv).2,
   (inv_moveAssign rhs v hv).1, (inv_moveAssign rhs v hv).2,
   (inv_swap v rhs hv hrhs).1, (inv_swap v rhs hv hrhs).2,
   inv_reserve v k hv,
   fun pos hpos => inv_emplace v pos x hv hpos,
   fun pos hpos => inv_erase v pos hv hpos,
   fun h => inv_popBack v hv h,
   fun n hn hsz => inv_resize v n hv hn hsz,
   fun hcase => inv_copyAssign v rhs hv hrhs hcase⟩

/-- Witness for invariant_preservation: instantiated on the concrete
vectors [10, 20, 30] (capacity 4) and [1] (capacity 2). -/
theorem invariant_preservation_witness :
    Inv ex103 ∧ Inv exA1 ∧
    Inv (ex103.Emplace 1 9) ∧
    Inv (ex103.Erase 1) ∧
    Inv ex103.PopBack ∧
    Inv (ex103.Resize 2) ∧
    Inv (ex103.copyAssign exA1) :=
  have hv : Inv ex103 := by decide
  have hrhs : Inv exA1 := by decide
  have h := invariant_preservation Nat ex103 exA1 2 5 9 hv hrhs
  ⟨hv, hrhs,
   h.2.2.2.2.2.2.2.2.2.2.1 1 (by decide),
   h.2.2.2.2.2.2.2.2.2.2.2.1 1 (by decide),
   h.2.2.2.2.2.2.2.2.2.2.2.2.1 (by decide),
   h.2.2.2.2.2.2.2.2.2.2.2.2.2.1 2 (by decide) (by decide),
   h.2.2.2.2.2.2.2.2.2.2.2.2.2.2 (Or.inl (by decide))⟩

end CppVec

/-
  Lifecycle model for resource accounting (claim about leaks and double
  destruction).  The value model above cannot see whether a block or an
  element object is ever released, so this second view of the same source
  tracks, per execution, the identities of the heap blocks obtained from
  operator new and handed to operator delete, and the counts of element
  constructor and destructor calls.  Element values are irrelevant here.
-/

namespace CppVecLifecycle

/-- The allocator and element-lifetime ledger of one execution: ids of
blocks allocated so far, ids handed back to Deallocate, and counts of
element constructions and destructions. -/
structure Heap where
  nextId : Nat
  allocatedBlocks : List Nat
  releasedBlocks : List Nat
  constructedElems : Nat
  destroyedElems : Nat

/-- RawMemory<T> in the lifecycle view: the owned block id (none = null
buffer) and the stored capacity. -/
structure RawMemory where
  buffer : Option Nat
  capacity : Nat

/-- Allocate(n): operator new for n elements when n != 0, else nullptr. -/
def allocate (h : Heap) (n : Nat) : Heap × Option Nat :=
  if n ≠ 0 then
    (⟨h.nextId + 1, h.allocatedBlocks ++ [h.nextId], h.releasedBlocks,
      h.constructedElems, h.destroyedElems⟩, some h.nextId)
  else (h, none)

/-- Deallocate(buf): operator delete; deleting a null pointer is a no-op. -/
def deallocate (h : Heap) (b : Option Nat) : Heap :=
  match b with
  | none => h
  | some id => { h with releasedBlocks := h.releasedBlocks ++ [id] }

/-- RawMemory(size_t capacity): Allocate only. -/
def rawCtor (h : Heap) (n : Nat) : Heap × RawMemory :=
  let p := allocate h n
  (p.1, ⟨p.2, n⟩)

/-- RawMemory(RawMemory&&): buffer_ = exchange(other.buffer_, nullptr);
capacity_ = exchange(other.capacity_, 0).  No Deallocate call.
Returns (constructed object, source afterwards). -/
def rawMoveCtor (r : RawMemory) : RawMemory × RawMemory :=
  (⟨r.buffer, r.capacity⟩, ⟨none, 0⟩)

/-- RawMemory::operator=(RawMemory&&) for distinct objects, exactly as in
the source: overwrite buffer_ and capacity_ with the source's, nulling the
source.  The destination's previous buffer_ is not passed to Deallocate.
Returns (destination afterwards, source afterwards). -/
def rawMoveAssign (dst rhs : RawMemory) : RawMemory × RawMemory :=
  (⟨rhs.buffer, rhs.capacity⟩, ⟨none, 0⟩)

/-- ~RawMemory(): Deallocate(buffer_). -/
def rawDtor (h : Heap) (r : RawMemory) : Heap :=
  deallocate h r.buffer

/-- Vector<T> in the lifecycle view. -/
structure Vec where
  data : RawMemory
  size : Nat

/-- explicit Vector(size_t size): RawMemory(size) then
uninitialized_value_construct_n(GetAddress(), size): size constructions. -/
def vecCtorSized (h : Heap) (n : Nat) : Heap × Vec :=
  let p := rawCtor h n
  ({ p.1 with constructedElems := p.1.constructedElems + n }, ⟨p.2, n⟩)

/-- Vector::operator=(Vector&&) for distinct objects, exactly as in the
source: data_ = std::exchange(rhs.data_, RawMemory<T>{}) and
size_ = std::exchange(rhs.size_, 0).  The exchange move-constructs a
temporary from rhs.data_, move-assigns an empty RawMemory into rhs.data_,
move-assigns the temporary into this->data_ (with no Deallocate of the
previous buffer and no destructor calls on the this->size_ live elements),
and destroys the two temporaries (both null by then) at the end of the full
expression.  Returns (heap, destination afterwards, source afterwards). -/
def vecMoveAssign (h : Heap) (dst rhs : Vec) : Heap × Vec × Vec :=
  let tmpAndRhs := rawMoveCtor rhs.data
  let rhsData := (rawMoveAssign tmpAndRhs.2 ⟨none, 0⟩).1
  let dstAndTmp := rawMoveAssign dst.data tmpAndRhs.1
  let h1 := rawDtor h dstAndTmp.2
  let h2 := rawDtor h1 (⟨none, 0⟩ : RawMemory)
  (h2, ⟨dstAndTmp.1, rhs.size⟩, ⟨rhsData, 0⟩)

/-- ~Vector(): std::destroy over the size_ live elements, then ~RawMemory
releases the block. -/
def vecDtor (h : Heap) (v : Vec) : Heap :=
  rawDtor { h with destroyedElems := h.destroyedElems + v.size } v.data

/-- The execution: Vector<T> a(1); Vector<T> b(1); a = std::move(b);
then b and a leave scope. -/
def moveAssignProgram : Heap :=
  let h0 : Heap := ⟨0, [], [], 0, 0⟩
  let pa := vecCtorSized h0 1
  let pb := vecCtorSized pa.1 1
  let pm := vecMoveAssign pb.1 pa.2 pb.2
  let h3 := vecDtor pm.1 pm.2.2
  vecDtor h3 pm.2.1

/-- Claim C5: the claim says every constructed element is destroyed exactly
once and every allocated block is released exactly once on every path,
including move assignment into a non-empty vector.  Evaluating the code on
the program a(1); b(1); a = std::move(b); with both then destroyed: two
blocks are allocated and two elements constructed, but only one block is
ever released and only one element ever destroyed -- vector a's original
block (id 0) and the element inside it are leaked, because
RawMemory::operator=(RawMemory&&) overwrites the destination buffer without
deallocating it and Vector::operator=(Vector&&) never destroys the
destination's live elements. -/
theorem moveAssign_leaks :
    moveAssignProgram.allocatedBlocks = [0, 1] ∧
    moveAssignProgram.releasedBlocks = [1] ∧
    moveAssignProgram.constructedElems = 2 ∧
    moveAssignProgram.destroyedElems = 1 := by
  decide

end CppVecLifecycle
